import Mathlib

/-!
Verification of the manifest graph and name-resolution engine of a
multi-package SQL-transformation build tool.

The manifest owns an artifact store (nodes, macros, documentation blocks,
disabled ids, file metadata) plus generation metadata.  From it are derived
the dependency maps (parent_map / child_map), the flattened node projection,
package-precedence name resolution for macros / materializations / refable
objects / sources / documentation, and the serialized manifest document.

The Manifest implementation itself (dbt/contracts/graph/manifest.py) is not
present under src/; only its exhaustive unit-test surface
(src/test/unit/test_manifest.py) is.  Every definition below is therefore
modelled from the specification's description of each operation, with the
test surface as the authority wherever the two disagree (the spec was
written from the code, and the tests are the code that is present).
-/

set_option autoImplicit false

namespace Dbt

/-- The always-present core package providing built-in defaults
(`GLOBAL_PROJECT_NAME`, i.e. the package named `dbt`). -/
def corePackage : String := "dbt"

/-- Resource kinds a node can have (the polymorphic node variants listed by
the spec's data model: buildable-model, seed, snapshot, test, analysis,
operation, source-definition). -/
inductive NodeType where
  | model
  | seed
  | snapshot
  | analysis
  | test
  | operation
  | source
deriving DecidableEq, Repr

/-- Modelled from the spec: the referenceable node kinds.  The refable
lookup "searches only buildable/referenceable node kinds (excludes
source-definitions and documentation)". -/
def NodeType.refable : NodeType → Bool
  | .model => true
  | .seed => true
  | .snapshot => true
  | _ => false

/-- The singular resource-kind label of a node type. -/
def NodeType.label : NodeType → String
  | .model => "model"
  | .seed => "seed"
  | .snapshot => "snapshot"
  | .analysis => "analysis"
  | .test => "test"
  | .operation => "operation"
  | .source => "source"

/-- Pluralized resource-kind label used as the grouping key by
`get_resource_fqns` (for example `models`, `seeds`). -/
def NodeType.pluralLabel (t : NodeType) : String := t.label ++ "s"

/-- Lifecycle stage of a buildable node: parsed (declared, not yet
compiled) or compiled (has resolved/rendered text). -/
inductive Stage where
  | parsed
  | compiled
deriving DecidableEq, Repr

/-- A node record of the artifact store.  `depends_on` is the ordered list
of node identifiers this node declares dependency edges to; `source_name`
is the source-collection name carried only by source-definitions. -/
structure Node where
  unique_id : String
  name : String
  package_name : String
  resource_type : NodeType
  fqn : List String
  depends_on : List String
  stage : Stage
  source_name : Option String
deriving DecidableEq, Repr

/-- A macro record: name, owning package, and (for materialization macros)
an adapter-type tag, either a concrete adapter name or `default`. -/
structure Macro where
  name : String
  package_name : String
  adapter_type : Option String
deriving DecidableEq, Repr

/-- The unique id of a macro combines its package and name. -/
def Macro.unique_id (m : Macro) : String :=
  "macro." ++ m.package_name ++ "." ++ m.name

/-- A documentation block: name and owning package. -/
structure Documentation where
  name : String
  package_name : String
deriving DecidableEq, Repr

/-- The unique id of a documentation block. -/
def Documentation.unique_id (d : Documentation) : String :=
  d.package_name ++ "." ++ d.name

/-- The active tracking user: an id and a do-not-track flag. -/
structure ActiveUser where
  id : String
  do_not_track : Bool
deriving DecidableEq, Repr

/-- Manifest generation metadata; all fields independently optional. -/
structure ManifestMetadata where
  project_id : Option String
  user_id : Option String
  send_anonymous_usage_stats : Option Bool
  adapter_type : Option String
deriving DecidableEq, Repr

/-- Modelled from the spec and the test surface (`test_metadata`):
constructing a `ManifestMetadata` while an active tracking user exists
defaults an omitted `user_id` to the active user's id and an omitted
`send_anonymous_usage_stats` to the negation of the user's do-not-track
flag; with no active user the fields stay as given. -/
def mkManifestMetadata (active_user : Option ActiveUser)
    (project_id user_id : Option String) (send_anonymous_usage_stats : Option Bool)
    (adapter_type : Option String) : ManifestMetadata :=
  match active_user with
  | none => ⟨project_id, user_id, send_anonymous_usage_stats, adapter_type⟩
  | some u =>
    ⟨project_id,
     match user_id with
     | none => some u.id
     | some x => some x,
     match send_anonymous_usage_stats with
     | none => some (!u.do_not_track)
     | some b => some b,
     adapter_type⟩

/-- A metadata record with every field unset. -/
def emptyMetadata : ManifestMetadata := ⟨none, none, none, none⟩

/-- A UTC timestamp at second precision. -/
structure UTCTime where
  year : Nat
  month : Nat
  day : Nat
  hour : Nat
  minute : Nat
  second : Nat
deriving DecidableEq, Repr

/-- Zero-pad a numeric field to two digits. -/
def pad2 (n : Nat) : String :=
  if n < 10 then "0" ++ toString n else toString n

/-- ISO-8601 rendering of a UTC timestamp at second precision with the
`Z` UTC suffix, as used for `generated_at`. -/
def formatTimestamp (t : UTCTime) : String :=
  toString t.year ++ "-" ++ pad2 t.month ++ "-" ++ pad2 t.day ++ "T" ++
    pad2 t.hour ++ ":" ++ pad2 t.minute ++ ":" ++ pad2 t.second ++ "Z"

/-- A serialized scalar value of the metadata block. -/
inductive JsonValue where
  | str (s : String)
  | boolean (b : Bool)
deriving DecidableEq, Repr

/-- Emit a key only when its optional value is set. -/
def optEntry (key : String) (v : Option JsonValue) : List (String × JsonValue) :=
  match v with
  | none => []
  | some x => [(key, x)]

/-- Serialization of the metadata block: only set fields populate, so an
entirely-unset metadata record serializes to an empty object. -/
def metadataToDict (md : ManifestMetadata) : List (String × JsonValue) :=
  optEntry "project_id" (md.project_id.map .str) ++
    optEntry "user_id" (md.user_id.map .str) ++
    optEntry "send_anonymous_usage_stats" (md.send_anonymous_usage_stats.map .boolean) ++
    optEntry "adapter_type" (md.adapter_type.map .str)

/-- The manifest: the artifact store (nodes, macros, docs, disabled ids,
file metadata) plus generation timestamp and optional metadata.  The
dictionaries of the store are modelled as insertion-ordered lists whose
unique ids are pairwise distinct (an invariant checked at construction). -/
structure Manifest where
  nodes : List Node
  macros : List Macro
  docs : List Documentation
  generated_at : UTCTime
  disabled : List String
  files : List (String × String)
  metadata : Option ManifestMetadata
deriving DecidableEq, Repr

/-- Modelled from the spec: the shared precedence scan for a macro with the
given name — search the root project first, then every other non-core
package (in store order; their relative order is unspecified beyond root),
then the core package, short-circuiting on the first match. -/
def findMacroScan (macros : List Macro) (name root : String) : Option Macro :=
  match macros.find? (fun m => decide (m.name = name ∧ m.package_name = root)) with
  | some m => some m
  | none =>
    match macros.find? (fun m =>
        decide (m.name = name ∧ m.package_name ≠ root ∧ m.package_name ≠ corePackage)) with
    | some m => some m
    | none => macros.find? (fun m => decide (m.name = name ∧ m.package_name = corePackage))

/-- Modelled from the spec: macro lookup.  A given `package` filter returns
the macro with that exact name in that exact package with no fallback; an
omitted filter scans in precedence order (root, then other packages, then
core). -/
def Manifest.find_macro_by_name (man : Manifest) (name root_project_name : String)
    (package : Option String) : Option Macro :=
  match package with
  | some p => man.macros.find? (fun m => decide (m.name = name ∧ m.package_name = p))
  | none => findMacroScan man.macros name root_project_name

/-- The naming convention for generate-name macros built from a component. -/
def generateComponentMacroName (component : String) : String :=
  "generate_" ++ component ++ "_name"

/-- Modelled from the spec's test surface
(`test_find_generate_macro_by_name`): generate-name macro lookup searches
only the root project and then the core package for the macro named by
convention from `component`.  (The spec's prose says the scan also visits
other packages, but the test table pins `dep`-only to not-found and
`dep`+`dbt` to the core macro, so macros of other packages are never
returned.) -/
def Manifest.find_generate_macro_by_name (man : Manifest)
    (component root_project_name : String) : Option Macro :=
  match man.macros.find? (fun m =>
      decide (m.name = generateComponentMacroName component ∧
        m.package_name = root_project_name)) with
  | some m => some m
  | none => man.macros.find? (fun m =>
      decide (m.name = generateComponentMacroName component ∧
        m.package_name = corePackage))

/-- The naming convention for materialization macros: the materialization
name combined with an adapter tag (a concrete adapter type or `default`). -/
def materializationMacroName (materialization_name adapter_tag : String) : String :=
  "materialization_" ++ materialization_name ++ "_" ++ adapter_tag

/-- Modelled from the spec: materialization macro lookup runs two
sequential passes over the same precedence-ordered scan, first pass wins —
pass 1 searches for the macro named with the exact requested adapter type,
pass 2 (only if pass 1 found nothing) for the macro named with the
`default` tag. -/
def Manifest.find_materialization_macro_by_name (man : Manifest)
    (project_name materialization_name adapter_type : String) : Option Macro :=
  match findMacroScan man.macros
      (materializationMacroName materialization_name adapter_type) project_name with
  | some m => some m
  | none => findMacroScan man.macros
      (materializationMacroName materialization_name "default") project_name

/-- An optional package filter: absent means any package matches. -/
def matchesPackage : Option String → String → Bool
  | none, _ => true
  | some q, p => decide (p = q)

/-- Modelled from the spec: refable lookup searches only referenceable node
kinds for a node with the given name, restricted to the exact package when
a filter is given. -/
def Manifest.find_refable_by_name (man : Manifest) (name : String)
    (package : Option String) : Option Node :=
  man.nodes.find? (fun n =>
    decide (n.resource_type.refable = true ∧ n.name = name ∧
      matchesPackage package n.package_name = true))

/-- Modelled from the spec: source-table lookup matches a source-definition
node whose source-collection name and table name both match exactly,
restricted to the exact package when a filter is given. -/
def Manifest.find_source_by_name (man : Manifest) (source_name table_name : String)
    (package : Option String) : Option Node :=
  man.nodes.find? (fun n =>
    decide (n.resource_type = NodeType.source ∧ n.source_name = some source_name ∧
      n.name = table_name ∧ matchesPackage package n.package_name = true))

/-- Modelled from the spec: documentation lookup is an exact-name match over
the documentation blocks, restricted to the exact package when a filter is
given; first match returned. -/
def Manifest.find_docs_by_name (man : Manifest) (name : String)
    (package : Option String) : Option Documentation :=
  man.docs.find? (fun d =>
    decide (d.name = name ∧ matchesPackage package d.package_name = true))

/-- Modelled from the spec: the backward adjacency (`parent_map`) — each
node id maps to the identifiers it directly depends on, exactly as
declared (dangling edges are kept here). -/
def backwardEdges (nodes : List Node) : List (String × List String) :=
  nodes.map (fun n => (n.unique_id, n.depends_on))

/-- Modelled from the spec: the forward adjacency (`child_map`) — each node
id maps to the identifiers of the store's nodes that directly depend on it
(an edge pointing to an id absent from the store is not mirrored here). -/
def forwardEdges (nodes : List Node) : List (String × List String) :=
  nodes.map (fun n =>
    (n.unique_id, (nodes.filter (fun m => n.unique_id ∈ m.depends_on)).map Node.unique_id))

/-- Dictionary lookup over an association list keyed by node id. -/
def mapLookup (l : List (String × List String)) (k : String) : Option (List String) :=
  (l.find? (fun e => decide (e.1 = k))).map Prod.snd

/-- The base field set exposed by the flattened projection of every parsed
node (identity, config, dependency edges, path metadata, description,
columns, docs linkage). -/
def requiredParsedNodeKeys : List String :=
  ["alias", "tags", "config", "unique_id", "refs", "sources", "meta",
   "depends_on", "database", "schema", "name", "resource_type",
   "package_name", "root_path", "path", "original_file_path", "raw_sql",
   "description", "columns", "fqn", "build_path", "patch_path", "docs"]

/-- The additional fields exposed only by compiled nodes, per the
repository's `REQUIRED_COMPILED_NODE_KEYS` contract. -/
def compiledOnlyNodeKeys : List String :=
  ["compiled", "extra_ctes_injected", "extra_ctes", "compiled_sql",
   "injected_sql", "wrapped_sql"]

/-- Modelled from the spec: the field set of one node's flattened
projection — the base set for parsed nodes, the base set plus the
compiled-only fields for compiled nodes. -/
def flatNodeKeys (n : Node) : List String :=
  match n.stage with
  | .parsed => requiredParsedNodeKeys
  | .compiled => requiredParsedNodeKeys ++ compiledOnlyNodeKeys

/-- Modelled from the spec: the flattened projection keyed by every node
identifier present in the store, each mapped to its stage-dictated field
set. -/
def Manifest.build_flat_graph (man : Manifest) : List (String × List String) :=
  man.nodes.map (fun n => (n.unique_id, flatNodeKeys n))

/-- Modelled from the spec: group every (enabled) node's fully-qualified
name under the pluralized label of its resource kind, yielding a mapping
from kind-label to the distinct fqn tuples of that kind.  (Disabled nodes
are stored separately from the store's node dictionary, so every node here
is enabled.) -/
def Manifest.get_resource_fqns (man : Manifest) : List (String × List (List String)) :=
  ((man.nodes.map (fun n => n.resource_type.pluralLabel)).dedup).map
    (fun l =>
      (l, ((man.nodes.filter (fun n => n.resource_type.pluralLabel = l)).map Node.fqn).dedup))

/-- The serialized manifest document, with the field layout
`{nodes, macros, parent_map, child_map, generated_at, docs, metadata,
disabled, files}`. -/
structure ManifestDoc where
  nodes : List (String × List String)
  macros : List (String × Macro)
  parent_map : List (String × List String)
  child_map : List (String × List String)
  generated_at : String
  docs : List (String × Documentation)
  metadata : List (String × JsonValue)
  disabled : List String
  files : List (String × String)
deriving DecidableEq, Repr

/-- Modelled from the spec: the externally-persisted manifest document —
flattened nodes, macro and doc dictionaries keyed by unique id, the two
dependency maps, the ISO-8601 timestamp, the metadata block (an empty
object when no metadata was supplied), the disabled-id list and the file
metadata mapping. -/
def Manifest.writable_manifest (man : Manifest) : ManifestDoc where
  nodes := man.build_flat_graph
  macros := man.macros.map (fun m => (m.unique_id, m))
  parent_map := backwardEdges man.nodes
  child_map := forwardEdges man.nodes
  generated_at := formatTimestamp man.generated_at
  docs := man.docs.map (fun d => (d.unique_id, d))
  metadata := metadataToDict (man.metadata.getD emptyMetadata)
  disabled := man.disabled
  files := man.files

/-- A plain macro record, as built by the test helper `MockMacro`. -/
def MockMacro (package : String) (name : String := "my_macro") : Macro :=
  ⟨name, package, none⟩

/-- A materialization macro record named by convention, as built by the
test helper `MockMaterialization`. -/
def MockMaterialization (package : String) (adapter_type : Option String)
    (name : String := "my_materialization") : Macro :=
  let tag := adapter_type.getD "default"
  ⟨materializationMacroName name tag, package, some tag⟩

/-- A generate-name macro record named by convention, as built by the test
helper `MockGenerateMacro`. -/
def MockGenerateMacro (package : String) (component : String := "some_component") : Macro :=
  ⟨generateComponentMacroName component, package, none⟩

/-- A parsed refable node record, as built by the test helper `MockNode`. -/
def MockNode (package name : String) (resource_type : NodeType := .model) : Node :=
  ⟨"macro." ++ package ++ "." ++ name, name, package, resource_type,
   [package, name], [], .parsed, none⟩

/-- A source-definition node record, as built by the test helper
`MockSource`. -/
def MockSource (package source_name name : String) : Node :=
  ⟨"source." ++ package ++ "." ++ source_name ++ "." ++ name, name, package,
   .source, [package, source_name, name], [], .parsed, some source_name⟩

/-- A documentation record, as built by the test helper
`MockDocumentation`. -/
def MockDocumentation (package name : String) : Documentation :=
  ⟨name, package⟩

/-- A manifest over the given artifact lists, as built by the test helper
`make_manifest`. -/
def make_manifest (nodes : List Node := []) (macros : List Macro := [])
    (docs : List Documentation := []) : Manifest :=
  ⟨nodes, macros, docs, ⟨2018, 2, 14, 9, 15, 13⟩, [], [], none⟩

/-! ### Helper lemmas about searches and association maps -/

lemma find?_decide_some {α : Type} (p : α → Prop) [DecidablePred p] {l : List α} {x : α}
    (h : l.find? (fun y => decide (p y)) = some x) : x ∈ l ∧ p x := by
  have h1 := List.find?_some h
  have h2 := List.mem_of_find?_eq_some h
  exact ⟨h2, by simpa using h1⟩

lemma find?_decide_none {α : Type} (p : α → Prop) [DecidablePred p] {l : List α} :
    l.find? (fun y => decide (p y)) = none ↔ ∀ x ∈ l, ¬ p x := by
  rw [List.find?_eq_none]
  constructor
  · intro h x hx hp
    exact absurd (decide_eq_true hp) (by simpa using h x hx)
  · intro h x hx
    simpa using h x hx

lemma find?_decide_isSome {α : Type} (p : α → Prop) [DecidablePred p] {l : List α}
    (h : ∃ x ∈ l, p x) : ∃ y, l.find? (fun z => decide (p z)) = some y ∧ y ∈ l ∧ p y := by
  cases hf : l.find? (fun z => decide (p z)) with
  | none =>
    obtain ⟨x, hx, hp⟩ := h
    exact absurd hp ((find?_decide_none p).mp hf x hx)
  | some y =>
    exact ⟨y, rfl, find?_decide_some p hf⟩

lemma findMacroScan_some {macros : List Macro} {name root : String} {m : Macro}
    (h : findMacroScan macros name root = some m) : m ∈ macros ∧ m.name = name := by
  unfold findMacroScan at h
  cases h1 : macros.find? (fun m => decide (m.name = name ∧ m.package_name = root)) with
  | some m1 =>
    rw [h1] at h
    obtain ⟨hmem, hp⟩ := find?_decide_some _ h1
    cases h
    exact ⟨hmem, hp.1⟩
  | none =>
    rw [h1] at h
    cases h2 : macros.find? (fun m =>
        decide (m.name = name ∧ m.package_name ≠ root ∧ m.package_name ≠ corePackage)) with
    | some m2 =>
      rw [h2] at h
      obtain ⟨hmem, hp⟩ := find?_decide_some _ h2
      cases h
      exact ⟨hmem, hp.1⟩
    | none =>
      rw [h2] at h
      obtain ⟨hmem, hp⟩ := find?_decide_some _ h
      exact ⟨hmem, hp.1⟩

lemma findMacroScan_none {macros : List Macro} {name root : String} :
    findMacroScan macros name root = none ↔ ∀ m ∈ macros, m.name ≠ name := by
  unfold findMacroScan
  constructor
  · intro h m hm hname
    cases h1 : macros.find? (fun m => decide (m.name = name ∧ m.package_name = root)) with
    | some m1 => rw [h1] at h; exact absurd h (by simp)
    | none =>
      rw [h1] at h
      cases h2 : macros.find? (fun m =>
          decide (m.name = name ∧ m.package_name ≠ root ∧ m.package_name ≠ corePackage)) with
      | some m2 => rw [h2] at h; exact absurd h (by simp)
      | none =>
        rw [h2] at h
        have hroot := (find?_decide_none _).mp h1 m hm
        have hmid := (find?_decide_none _).mp h2 m hm
        have hcore := (find?_decide_none _).mp h m hm
        by_cases hr : m.package_name = root
        · exact hroot ⟨hname, hr⟩
        · by_cases hc : m.package_name = corePackage
          · exact hcore ⟨hname, hc⟩
          · exact hmid ⟨hname, hr, hc⟩
  · intro h
    have e1 : macros.find? (fun m => decide (m.name = name ∧ m.package_name = root)) = none :=
      (find?_decide_none _).mpr (fun m hm hp => h m hm hp.1)
    have e2 : macros.find? (fun m =>
        decide (m.name = name ∧ m.package_name ≠ root ∧ m.package_name ≠ corePackage)) = none :=
      (find?_decide_none _).mpr (fun m hm hp => h m hm hp.1)
    have e3 : macros.find? (fun m => decide (m.name = name ∧ m.package_name = corePackage)) = none :=
      (find?_decide_none _).mpr (fun m hm hp => h m hm hp.1)
    rw [e1, e2, e3]

lemma findMacroScan_root {macros : List Macro} {name root : String}
    (h : ∃ m ∈ macros, m.name = name ∧ m.package_name = root) :
    ∃ m, findMacroScan macros name root = some m ∧ m ∈ macros ∧
      m.name = name ∧ m.package_name = root := by
  obtain ⟨m1, hf, hmem, hp⟩ := find?_decide_isSome
    (fun m => m.name = name ∧ m.package_name = root) h
  refine ⟨m1, ?_, hmem, hp.1, hp.2⟩
  unfold findMacroScan
  rw [hf]

lemma findMacroScan_mid {macros : List Macro} {name root : String}
    (hroot : ∀ m ∈ macros, ¬(m.name = name ∧ m.package_name = root))
    (h : ∃ m ∈ macros, m.name = name ∧ m.package_name ≠ root ∧ m.package_name ≠ corePackage) :
    ∃ m, findMacroScan macros name root = some m ∧ m ∈ macros ∧
      m.name = name ∧ m.package_name ≠ root ∧ m.package_name ≠ corePackage := by
  have e1 : macros.find? (fun m => decide (m.name = name ∧ m.package_name = root)) = none :=
    (find?_decide_none _).mpr hroot
  obtain ⟨m1, hf, hmem, hp⟩ := find?_decide_isSome
    (fun m => m.name = name ∧ m.package_name ≠ root ∧ m.package_name ≠ corePackage) h
  refine ⟨m1, ?_, hmem, hp.1, hp.2.1, hp.2.2⟩
  unfold findMacroScan
  rw [e1, hf]

lemma findMacroScan_core {macros : List Macro} {name root : String}
    (hroot : ∀ m ∈ macros, ¬(m.name = name ∧ m.package_name = root))
    (hmid : ∀ m ∈ macros,
      ¬(m.name = name ∧ m.package_name ≠ root ∧ m.package_name ≠ corePackage))
    (h : ∃ m ∈ macros, m.name = name ∧ m.package_name = corePackage) :
    ∃ m, findMacroScan macros name root = some m ∧ m ∈ macros ∧
      m.name = name ∧ m.package_name = corePackage := by
  have e1 : macros.find? (fun m => decide (m.name = name ∧ m.package_name = root)) = none :=
    (find?_decide_none _).mpr hroot
  have e2 : macros.find? (fun m =>
      decide (m.name = name ∧ m.package_name ≠ root ∧ m.package_name ≠ corePackage)) = none :=
    (find?_decide_none _).mpr hmid
  obtain ⟨m1, hf, hmem, hp⟩ := find?_decide_isSome
    (fun m => m.name = name ∧ m.package_name = corePackage) h
  refine ⟨m1, ?_, hmem, hp.1, hp.2⟩
  unfold findMacroScan
  rw [e1, e2, hf]

lemma uid_inj {nodes : List Node} (hnd : (nodes.map Node.unique_id).Nodup)
    {a b : Node} (ha : a ∈ nodes) (hb : b ∈ nodes)
    (h : a.unique_id = b.unique_id) : a = b :=
  List.inj_on_of_nodup_map hnd ha hb h

lemma mapLookup_of_mem {nodes : List Node} (f : Node → List String) {n : Node}
    (hnd : (nodes.map Node.unique_id).Nodup) (hn : n ∈ nodes) :
    mapLookup (nodes.map (fun x => (x.unique_id, f x))) n.unique_id = some (f n) := by
  induction nodes with
  | nil => cases hn
  | cons h t ih =>
    simp only [List.map_cons, mapLookup, List.find?]
    by_cases he : h.unique_id = n.unique_id
    · have : n = h := by
        rcases List.mem_cons.mp hn with rfl | hmem
        · rfl
        · exfalso
          have : h.unique_id ∈ t.map Node.unique_id :=
            he ▸ List.mem_map_of_mem Node.unique_id hmem
          exact (List.nodup_cons.mp hnd).1 this
      subst this
      simp
    · have hne : n ≠ h := fun e => he (e ▸ rfl)
      have hmem : n ∈ t := (List.mem_cons.mp hn).resolve_left hne
      have := ih (List.nodup_cons.mp hnd).2 hmem
      simpa [mapLookup, he] using this

lemma mapLookup_backwardEdges {nodes : List Node}
    (hnd : (nodes.map Node.unique_id).Nodup) {n : Node} (hn : n ∈ nodes) :
    mapLookup (backwardEdges nodes) n.unique_id = some n.depends_on := by
  have h := mapLookup_of_mem Node.depends_on hnd hn
  simpa [backwardEdges] using h

lemma mapLookup_forwardEdges {nodes : List Node}
    (hnd : (nodes.map Node.unique_id).Nodup) {n : Node} (hn : n ∈ nodes) :
    mapLookup (forwardEdges nodes) n.unique_id =
      some ((nodes.filter (fun m => n.unique_id ∈ m.depends_on)).map Node.unique_id) := by
  have h := mapLookup_of_mem (fun x =>
    (nodes.filter (fun m => x.unique_id ∈ m.depends_on)).map Node.unique_id) hnd hn
  simpa [forwardEdges] using h

/-! ### Claim theorems -/

/-- C3: for every macro set containing macros with the same name in the
root project, a dependency package, and the core package,
`find_macro_by_name` with `package` omitted returns the root macro over the
dependency macro over the core macro in that strict priority, and
`find_macro_by_name` with a package filter returns that exact package's
macro or the not-found sentinel, never falling back to another package. -/
theorem find_macro_by_name_precedence (man : Manifest) (name root : String) :
    (∀ p m, man.find_macro_by_name name root (some p) = some m →
      m ∈ man.macros ∧ m.name = name ∧ m.package_name = p) ∧
    (∀ p, man.find_macro_by_name name root (some p) = none ↔
      ∀ m ∈ man.macros, ¬(m.name = name ∧ m.package_name = p)) ∧
    ((∃ m ∈ man.macros, m.name = name ∧ m.package_name = root) →
      ∃ m, man.find_macro_by_name name root none = some m ∧
        m.name = name ∧ m.package_name = root) ∧
    ((∀ m ∈ man.macros, ¬(m.name = name ∧ m.package_name = root)) →
      (∃ m ∈ man.macros, m.name = name ∧ m.package_name ≠ root ∧
        m.package_name ≠ corePackage) →
      ∃ m, man.find_macro_by_name name root none = some m ∧
        m.name = name ∧ m.package_name ≠ root ∧ m.package_name ≠ corePackage) ∧
    ((∀ m ∈ man.macros, ¬(m.name = name ∧ m.package_name = root)) →
      (∀ m ∈ man.macros, ¬(m.name = name ∧ m.package_name ≠ root ∧
        m.package_name ≠ corePackage)) →
      (∃ m ∈ man.macros, m.name = name ∧ m.package_name = corePackage) →
      ∃ m, man.find_macro_by_name name root none = some m ∧
        m.name = name ∧ m.package_name = corePackage) ∧
    (man.find_macro_by_name name root none = none ↔
      ∀ m ∈ man.macros, m.name ≠ name) := by
  refine ⟨?_, ?_, ?_, ?_, ?_, ?_⟩
  · intro p m h
    obtain ⟨hmem, hp⟩ := find?_decide_some _ h
    exact ⟨hmem, hp.1, hp.2⟩
  · intro p
    exact find?_decide_none _
  · intro h
    obtain ⟨m, hf, hmem, hn, hp⟩ := findMacroScan_root h
    exact ⟨m, hf, hn, hp⟩
  · intro hroot h
    obtain ⟨m, hf, hmem, hn, hp1, hp2⟩ := findMacroScan_mid hroot h
    exact ⟨m, hf, hn, hp1, hp2⟩
  · intro hroot hmid h
    obtain ⟨m, hf, hmem, hn, hp⟩ := findMacroScan_core hroot hmid h
    exact ⟨m, hf, hn, hp⟩
  · exact findMacroScan_none

/-- C3 witness: on the macro set {root, dep, dbt} of the test surface, the
unqualified lookup finds a macro (the root one, by the root-priority part
of the theorem). -/
theorem find_macro_by_name_precedence_witness :
    (make_manifest [] [MockMacro "root", MockMacro "dep", MockMacro "dbt"] []).find_macro_by_name
      "my_macro" "root" none ≠ none := by
  obtain ⟨m, hm, -, -⟩ :=
    (find_macro_by_name_precedence
      (make_manifest [] [MockMacro "root", MockMacro "dep", MockMacro "dbt"] [])
      "my_macro" "root").2.2.1 (by decide)
  simp [hm]

/-- C1: `find_materialization_macro_by_name` performs two passes over the
package precedence order (root project, then other non-core packages, then
the core package): pass 1 returns the first package in precedence order
defining a macro for the materialization name tagged with the exact
requested adapter type; pass 2 runs only if pass 1 found nothing and
returns the first package in precedence order defining the `default`
macro; the result is the not-found sentinel if neither pass matches.  In
particular, with macros {root: bar, dep: foo, core: default} and adapter
type foo, the dep macro is returned. -/
theorem find_materialization_macro_two_pass (man : Manifest) (mname atype root : String) :
    (man.find_materialization_macro_by_name root mname atype = none ↔
      ∀ m ∈ man.macros, m.name ≠ materializationMacroName mname atype ∧
        m.name ≠ materializationMacroName mname "default") ∧
    (∀ m, man.find_materialization_macro_by_name root mname atype = some m →
      m ∈ man.macros ∧ (m.name = materializationMacroName mname atype ∨
        (m.name = materializationMacroName mname "default" ∧
          ∀ m' ∈ man.macros, m'.name ≠ materializationMacroName mname atype))) ∧
    ((∃ m ∈ man.macros, m.name = materializationMacroName mname atype ∧
        m.package_name = root) →
      ∃ m, man.find_materialization_macro_by_name root mname atype = some m ∧
        m.name = materializationMacroName mname atype ∧ m.package_name = root) ∧
    ((∀ m ∈ man.macros, ¬(m.name = materializationMacroName mname atype ∧
        m.package_name = root)) →
      (∃ m ∈ man.macros, m.name = materializationMacroName mname atype ∧
        m.package_name ≠ root ∧ m.package_name ≠ corePackage) →
      ∃ m, man.find_materialization_macro_by_name root mname atype = some m ∧
        m.name = materializationMacroName mname atype ∧
        m.package_name ≠ root ∧ m.package_name ≠ corePackage) ∧
    ((∀ m ∈ man.macros, m.name ≠ materializationMacroName mname atype) →
      (∃ m ∈ man.macros, m.name = materializationMacroName mname "default" ∧
        m.package_name = root) →
      ∃ m, man.find_materialization_macro_by_name root mname atype = some m ∧
        m.name = materializationMacroName mname "default" ∧ m.package_name = root) ∧
    ((make_manifest [] [MockMaterialization "root" (some "bar"),
        MockMaterialization "dep" (some "foo"),
        MockMaterialization "dbt" none] []).find_materialization_macro_by_name
      "root" "my_materialization" "foo" = some (MockMaterialization "dep" (some "foo"))) := by
  refine ⟨?_, ?_, ?_, ?_, ?_, by decide⟩
  · unfold Manifest.find_materialization_macro_by_name
    constructor
    · intro h m hm
      cases h1 : findMacroScan man.macros (materializationMacroName mname atype) root with
      | some m1 => rw [h1] at h; exact absurd h (by simp)
      | none =>
        rw [h1] at h
        exact ⟨findMacroScan_none.mp h1 m hm, findMacroScan_none.mp h m hm⟩
    · intro h
      have e1 : findMacroScan man.macros (materializationMacroName mname atype) root = none :=
        findMacroScan_none.mpr (fun m hm => (h m hm).1)
      have e2 : findMacroScan man.macros (materializationMacroName mname "default") root = none :=
        findMacroScan_none.mpr (fun m hm => (h m hm).2)
      rw [e1, e2]
  · intro m h
    unfold Manifest.find_materialization_macro_by_name at h
    cases h1 : findMacroScan man.macros (materializationMacroName mname atype) root with
    | some m1 =>
      rw [h1] at h
      cases h
      obtain ⟨hmem, hn⟩ := findMacroScan_some h1
      exact ⟨hmem, Or.inl hn⟩
    | none =>
      rw [h1] at h
      obtain ⟨hmem, hn⟩ := findMacroScan_some h
      exact ⟨hmem, Or.inr ⟨hn, findMacroScan_none.mp h1⟩⟩
  · intro h
    obtain ⟨m, hf, hmem, hn, hp⟩ := findMacroScan_root h
    refine ⟨m, ?_, hn, hp⟩
    unfold Manifest.find_materialization_macro_by_name
    rw [hf]
  · intro hroot h
    obtain ⟨m, hf, hmem, hn, hp1, hp2⟩ := findMacroScan_mid hroot h
    refine ⟨m, ?_, hn, hp1, hp2⟩
    unfold Manifest.find_materialization_macro_by_name
    rw [hf]
  · intro hnone h
    have e1 : findMacroScan man.macros (materializationMacroName mname atype) root = none :=
      findMacroScan_none.mpr hnone
    obtain ⟨m, hf, hmem, hn, hp⟩ := findMacroScan_root h
    refine ⟨m, ?_, hn, hp⟩
    unfold Manifest.find_materialization_macro_by_name
    rw [e1, hf]

/-- C1 witness: on the test surface's macro set {root: bar, dep: foo,
core: default} the adapter-specific pass fires for the dep package, so the
lookup finds a macro. -/
theorem find_materialization_macro_two_pass_witness :
    (make_manifest [] [MockMaterialization "root" (some "bar"),
      MockMaterialization "dep" (some "foo"),
      MockMaterialization "dbt" none] []).find_materialization_macro_by_name
      "root" "my_materialization" "foo" ≠ none := by
  obtain ⟨m, hm, -, -⟩ :=
    (find_materialization_macro_two_pass
      (make_manifest [] [MockMaterialization "root" (some "bar"),
        MockMaterialization "dep" (some "foo"),
        MockMaterialization "dbt" none] [])
      "my_materialization" "foo" "root").2.2.2.1 (by decide) (by decide)
  simp [hm]

/-- C2 counterexample: a generate-name macro that lives only in the
non-root, non-core package `dep` is named by convention from the
component, yet the lookup returns the not-found sentinel rather than that
macro (matching the test table: `dep`-only expects not-found). -/
theorem find_generate_macro_dep_not_found :
    (MockGenerateMacro "dep").name = generateComponentMacroName "some_component" ∧
    (MockGenerateMacro "dep").package_name = "dep" ∧
    (make_manifest [] [MockGenerateMacro "dep"] []).find_generate_macro_by_name
      "some_component" "root" = none := by decide

/-- C2 amended: `find_generate_macro_by_name` scans only the root project
and then the core package for the macro named by convention from the
component; macros of every other package are never returned, and the
result is the not-found sentinel when neither the root project nor the
core package defines the macro. -/
theorem find_generate_macro_by_name_spec (man : Manifest) (component root : String) :
    (∀ m, man.find_generate_macro_by_name component root = some m →
      m ∈ man.macros ∧ m.name = generateComponentMacroName component ∧
        (m.package_name = root ∨ m.package_name = corePackage)) ∧
    ((∃ m ∈ man.macros, m.name = generateComponentMacroName component ∧
        m.package_name = root) →
      ∃ m, man.find_generate_macro_by_name component root = some m ∧
        m.name = generateComponentMacroName component ∧ m.package_name = root) ∧
    ((∀ m ∈ man.macros, ¬(m.name = generateComponentMacroName component ∧
        m.package_name = root)) →
      (∃ m ∈ man.macros, m.name = generateComponentMacroName component ∧
        m.package_name = corePackage) →
      ∃ m, man.find_generate_macro_by_name component root = some m ∧
        m.name = generateComponentMacroName component ∧ m.package_name = corePackage) ∧
    (man.find_generate_macro_by_name component root = none ↔
      ∀ m ∈ man.macros, ¬(m.name = generateComponentMacroName component ∧
        (m.package_name = root ∨ m.package_name = corePackage))) := by
  refine ⟨?_, ?_, ?_, ?_⟩
  · intro m h
    unfold Manifest.find_generate_macro_by_name at h
    cases h1 : man.macros.find? (fun m =>
        decide (m.name = generateComponentMacroName component ∧
          m.package_name = root)) with
    | some m1 =>
      rw [h1] at h
      cases h
      obtain ⟨hmem, hp⟩ := find?_decide_some _ h1
      exact ⟨hmem, hp.1, Or.inl hp.2⟩
    | none =>
      rw [h1] at h
      obtain ⟨hmem, hp⟩ := find?_decide_some _ h
      exact ⟨hmem, hp.1, Or.inr hp.2⟩
  · intro h
    obtain ⟨m, hf, hmem, hp⟩ := find?_decide_isSome
      (fun m => m.name = generateComponentMacroName component ∧ m.package_name = root) h
    refine ⟨m, ?_, hp.1, hp.2⟩
    unfold Manifest.find_generate_macro_by_name
    rw [hf]
  · intro hroot h
    have e1 : man.macros.find? (fun m =>
        decide (m.name = generateComponentMacroName component ∧
          m.package_name = root)) = none :=
      (find?_decide_none _).mpr hroot
    obtain ⟨m, hf, hmem, hp⟩ := find?_decide_isSome
      (fun m => m.name = generateComponentMacroName component ∧
        m.package_name = corePackage) h
    refine ⟨m, ?_, hp.1, hp.2⟩
    unfold Manifest.find_generate_macro_by_name
    rw [e1, hf]
  · unfold Manifest.find_generate_macro_by_name
    constructor
    · intro h m hm hp
      cases h1 : man.macros.find? (fun m =>
          decide (m.name = generateComponentMacroName component ∧
            m.package_name = root)) with
      | some m1 => rw [h1] at h; exact absurd h (by simp)
      | none =>
        rw [h1] at h
        rcases hp.2 with hr | hc
        · exact (find?_decide_none _).mp h1 m hm ⟨hp.1, hr⟩
        · exact (find?_decide_none _).mp h m hm ⟨hp.1, hc⟩
    · intro h
      have e1 : man.macros.find? (fun m =>
          decide (m.name = generateComponentMacroName component ∧
            m.package_name = root)) = none :=
        (find?_decide_none _).mpr (fun m hm hp => h m hm ⟨hp.1, Or.inl hp.2⟩)
      have e2 : man.macros.find? (fun m =>
          decide (m.name = generateComponentMacroName component ∧
            m.package_name = corePackage)) = none :=
        (find?_decide_none _).mpr (fun m hm hp => h m hm ⟨hp.1, Or.inr hp.2⟩)
      rw [e1, e2]

/-- C2 witness: on the test surface's macro set {dep, dbt}, the root scan
is empty and the core scan fires, so the lookup finds a macro (the core
one). -/
theorem find_generate_macro_by_name_spec_witness :
    (make_manifest [] [MockGenerateMacro "dep", MockGenerateMacro "dbt"] []).find_generate_macro_by_name
      "some_component" "root" ≠ none := by
  obtain ⟨m, hm, -, -⟩ :=
    (find_generate_macro_by_name_spec
      (make_manifest [] [MockGenerateMacro "dep", MockGenerateMacro "dbt"] [])
      "some_component" "root").2.2.1 (by decide) (by decide)
  simp [hm]

/-- The `events` model of the nested-node test fixture: no dependency
edges. -/
def nodeEvents : Node :=
  ⟨"model.root.events", "events", "root", .model, ["root", "events"], [], .parsed, none⟩

/-- The `dep` model of the nested-node test fixture: one dependency edge
to the `events` model. -/
def nodeDep : Node :=
  ⟨"model.root.dep", "dep", "root", .model, ["root", "dep"],
   ["model.root.events"], .parsed, none⟩

/-- C4 counterexample: in the store {events, dep} where `dep` declares a
dependency edge to `events`, the id of `dep` is a member of
`child_map[events]` although `events` declares no dependency edge to
`dep` — so "b ∈ child_map[a] iff a declares a dependency edge to b" fails
at a = events, b = dep; the edge runs the other way. -/
theorem child_map_edge_direction_counterexample :
    mapLookup (forwardEdges [nodeEvents, nodeDep]) nodeEvents.unique_id =
      some [nodeDep.unique_id] ∧
    nodeDep.unique_id ∉ nodeEvents.depends_on := by decide

/-- C4 amended: for every node set with distinct identifiers, the
edge-reversal invariant holds with the edge read in the declared
direction — `b ∈ child_map[a]` iff `b` declares a dependency edge to `a`,
equivalently `b ∈ child_map[a] ⟺ a ∈ parent_map[b]`. -/
theorem parent_child_edge_reversal (nodes : List Node)
    (hnd : (nodes.map Node.unique_id).Nodup) (a b : Node)
    (ha : a ∈ nodes) (hb : b ∈ nodes) :
    ((∃ l, mapLookup (forwardEdges nodes) a.unique_id = some l ∧ b.unique_id ∈ l) ↔
      a.unique_id ∈ b.depends_on) ∧
    ((∃ l, mapLookup (forwardEdges nodes) a.unique_id = some l ∧ b.unique_id ∈ l) ↔
      (∃ l, mapLookup (backwardEdges nodes) b.unique_id = some l ∧
        a.unique_id ∈ l)) := by
  have hfwd := mapLookup_forwardEdges hnd ha
  have hbwd := mapLookup_backwardEdges hnd hb
  have hchild : (∃ l, mapLookup (forwardEdges nodes) a.unique_id = some l ∧
      b.unique_id ∈ l) ↔ a.unique_id ∈ b.depends_on := by
    constructor
    · rintro ⟨l, hl, hbl⟩
      rw [hfwd] at hl
      cases hl
      obtain ⟨m, hm, huid⟩ := List.mem_map.mp hbl
      obtain ⟨hmn, hdep⟩ := List.mem_filter.mp hm
      have : m = b := uid_inj hnd hmn hb huid
      subst this
      simpa using hdep
    · intro h
      refine ⟨_, hfwd, List.mem_map_of_mem Node.unique_id ?_⟩
      exact List.mem_filter.mpr ⟨hb, by simpa using h⟩
  refine ⟨hchild, hchild.trans ?_⟩
  rw [hbwd]
  constructor
  · intro h
    exact ⟨b.depends_on, rfl, h⟩
  · rintro ⟨l, hl, hal⟩
    cases hl
    exact hal

/-- C4 witness: in the two-node fixture the amended invariant holds at
a = events, b = dep — dep's id is in `child_map[events]` and events' id is
in `parent_map[dep]`. -/
theorem parent_child_edge_reversal_witness :
    (∃ l, mapLookup (forwardEdges [nodeEvents, nodeDep]) nodeEvents.unique_id =
      some l ∧ nodeDep.unique_id ∈ l) ↔
    (∃ l, mapLookup (backwardEdges [nodeEvents, nodeDep]) nodeDep.unique_id =
      some l ∧ nodeEvents.unique_id ∈ l) :=
  (parent_child_edge_reversal [nodeEvents, nodeDep] (by decide) nodeEvents nodeDep
    (by simp) (by simp)).2

/-- C5: every node identifier present in the store appears as a key in both
`parent_map` and `child_map` — nodes with zero dependency edges (in either
direction) map to an empty sequence — and no key appears in either map for
an identifier not in the store. -/
theorem dependency_maps_keyed_by_all_nodes (nodes : List Node)
    (hnd : (nodes.map Node.unique_id).Nodup) :
    (backwardEdges nodes).map Prod.fst = nodes.map Node.unique_id ∧
    (forwardEdges nodes).map Prod.fst = nodes.map Node.unique_id ∧
    (∀ n ∈ nodes, n.depends_on = [] →
      mapLookup (backwardEdges nodes) n.unique_id = some []) ∧
    (∀ n ∈ nodes, (∀ m ∈ nodes, n.unique_id ∉ m.depends_on) →
      mapLookup (forwardEdges nodes) n.unique_id = some []) ∧
    (∀ k, k ∉ nodes.map Node.unique_id →
      mapLookup (backwardEdges nodes) k = none ∧
      mapLookup (forwardEdges nodes) k = none) := by
  refine ⟨?_, ?_, ?_, ?_, ?_⟩
  · simp [backwardEdges]
  · simp [forwardEdges]
  · intro n hn hdep
    have := mapLookup_backwardEdges hnd hn
    rw [hdep] at this
    exact this
  · intro n hn hnone
    have := mapLookup_forwardEdges hnd hn
    have hfilter : nodes.filter (fun m => n.unique_id ∈ m.depends_on) = [] := by
      rw [List.filter_eq_nil_iff]
      intro m hm
      simpa using hnone m hm
    rw [hfilter] at this
    exact this
  · intro k hk
    constructor
    · have hnone : ∀ e ∈ backwardEdges nodes, ¬(e.1 = k) := by
        intro e he hek
        obtain ⟨n, hn, rfl⟩ := List.mem_map.mp he
        exact hk (hek ▸ List.mem_map_of_mem Node.unique_id hn)
      rw [mapLookup, (find?_decide_none _).mpr hnone]
      rfl
    · have hnone : ∀ e ∈ forwardEdges nodes, ¬(e.1 = k) := by
        intro e he hek
        obtain ⟨n, hn, rfl⟩ := List.mem_map.mp he
        exact hk (hek ▸ List.mem_map_of_mem Node.unique_id hn)
      rw [mapLookup, (find?_decide_none _).mpr hnone]
      rfl

/-- C5 witness: in the two-node fixture both maps are keyed by exactly the
two node ids, and the edge-free `events` node maps to an empty parent
list. -/
theorem dependency_maps_keyed_witness :
    (backwardEdges [nodeEvents, nodeDep]).map Prod.fst =
      [nodeEvents, nodeDep].map Node.unique_id ∧
    mapLookup (backwardEdges [nodeEvents, nodeDep]) nodeEvents.unique_id = some [] :=
  ⟨(dependency_maps_keyed_by_all_nodes [nodeEvents, nodeDep] (by decide)).1,
   (dependency_maps_keyed_by_all_nodes [nodeEvents, nodeDep] (by decide)).2.2.1
     nodeEvents (by simp) rfl⟩

lemma matchesPackage_some {pkg p : String} :
    matchesPackage (some pkg) p = true ↔ p = pkg := by
  simp [matchesPackage]

/-- C6: `find_refable_by_name` never returns a source-definition (any hit
is of a referenceable kind and carries the requested name);
`find_source_by_name` never returns a non-source node (any hit is a
source-definition whose source name and table name both match); and all
three of the refable, source, and documentation lookups return the
not-found sentinel under a package filter whenever every matching artifact
belongs to a different package. -/
theorem kind_and_package_filtered_lookups (man : Manifest)
    (name source_name table_name pkg : String) (package : Option String) :
    (∀ n, man.find_refable_by_name name package = some n →
      n ∈ man.nodes ∧ n.resource_type.refable = true ∧
        n.resource_type ≠ NodeType.source ∧ n.name = name) ∧
    (∀ n, man.find_refable_by_name name (some pkg) = some n →
      n.package_name = pkg) ∧
    ((∀ n ∈ man.nodes, ¬(n.resource_type.refable = true ∧ n.name = name ∧
        n.package_name = pkg)) →
      man.find_refable_by_name name (some pkg) = none) ∧
    (∀ n, man.find_source_by_name source_name table_name package = some n →
      n ∈ man.nodes ∧ n.resource_type = NodeType.source ∧
        n.source_name = some source_name ∧ n.name = table_name) ∧
    (∀ n, man.find_source_by_name source_name table_name (some pkg) = some n →
      n.package_name = pkg) ∧
    ((∀ n ∈ man.nodes, ¬(n.resource_type = NodeType.source ∧
        n.source_name = some source_name ∧ n.name = table_name ∧
        n.package_name = pkg)) →
      man.find_source_by_name source_name table_name (some pkg) = none) ∧
    (∀ d, man.find_docs_by_name name package = some d →
      d ∈ man.docs ∧ d.name = name) ∧
    (∀ d, man.find_docs_by_name name (some pkg) = some d →
      d.package_name = pkg) ∧
    ((∀ d ∈ man.docs, ¬(d.name = name ∧ d.package_name = pkg)) →
      man.find_docs_by_name name (some pkg) = none) := by
  refine ⟨?_, ?_, ?_, ?_, ?_, ?_, ?_, ?_, ?_⟩
  · intro n h
    obtain ⟨hmem, hp⟩ := find?_decide_some _ h
    refine ⟨hmem, hp.1, ?_, hp.2.1⟩
    intro hsrc
    rw [hsrc] at hp
    exact absurd hp.1 (by simp [NodeType.refable])
  · intro n h
    obtain ⟨-, hp⟩ := find?_decide_some _ h
    exact matchesPackage_some.mp hp.2.2
  · intro h
    exact (find?_decide_none _).mpr (fun n hn hp =>
      h n hn ⟨hp.1, hp.2.1, matchesPackage_some.mp hp.2.2⟩)
  · intro n h
    obtain ⟨hmem, hp⟩ := find?_decide_some _ h
    exact ⟨hmem, hp.1, hp.2.1, hp.2.2.1⟩
  · intro n h
    obtain ⟨-, hp⟩ := find?_decide_some _ h
    exact matchesPackage_some.mp hp.2.2.2
  · intro h
    exact (find?_decide_none _).mpr (fun n hn hp =>
      h n hn ⟨hp.1, hp.2.1, hp.2.2.1, matchesPackage_some.mp hp.2.2.2⟩)
  · intro d h
    obtain ⟨hmem, hp⟩ := find?_decide_some _ h
    exact ⟨hmem, hp.1⟩
  · intro d h
    obtain ⟨-, hp⟩ := find?_decide_some _ h
    exact matchesPackage_some.mp hp.2
  · intro h
    exact (find?_decide_none _).mpr (fun d hd hp =>
      h d hd ⟨hp.1, matchesPackage_some.mp hp.2⟩)

/-- C6 witness: the package-filtered lookups return the not-found sentinel
on the test fixtures where the only matching artifact lives in another
package. -/
theorem kind_and_package_filtered_lookups_witness :
    (make_manifest [MockNode "dep" "my_model"] [] []).find_refable_by_name
      "my_model" (some "root") = none ∧
    (make_manifest [MockSource "other" "my_source" "my_table"] [] []).find_source_by_name
      "my_source" "my_table" (some "root") = none ∧
    (make_manifest [] [] [MockDocumentation "dep" "my_doc"]).find_docs_by_name
      "my_doc" (some "root") = none :=
  ⟨(kind_and_package_filtered_lookups (make_manifest [MockNode "dep" "my_model"] [] [])
      "my_model" "my_source" "my_table" "root" none).2.2.1 (by decide),
   (kind_and_package_filtered_lookups
      (make_manifest [MockSource "other" "my_source" "my_table"] [] [])
      "my_model" "my_source" "my_table" "root" none).2.2.2.2.2.1 (by decide),
   (kind_and_package_filtered_lookups
      (make_manifest [] [] [MockDocumentation "dep" "my_doc"])
      "my_doc" "my_source" "my_table" "root" none).2.2.2.2.2.2.2.2 (by decide)⟩

/-- The compiled `events` model of the mixed-store test fixture. -/
def compiledEventsNode : Node :=
  ⟨"model.root.events", "events", "root", .model, ["root", "events"], [],
   .compiled, none⟩

/-- C7 counterexample: a compiled node's projection also carries the
`wrapped_sql` field, so its field set is not exactly the base set plus the
five compiled-only fields the claim lists (compiled flag, compiled text,
injected text, CTE-injection flag, injected CTE list). -/
theorem compiled_projection_has_wrapped_sql :
    "wrapped_sql" ∈ flatNodeKeys compiledEventsNode ∧
    "wrapped_sql" ∉ requiredParsedNodeKeys ++
      ["compiled", "compiled_sql", "injected_sql", "extra_ctes_injected",
       "extra_ctes"] := by decide

/-- C7 amended: `build_flat_graph` produces a projection keyed by exactly
the store's node identifiers; every parsed node's projection has exactly
the base field set and every compiled node's projection has exactly the
base field set plus the compiled-only fields (compiled flag, compiled
text, injected text, CTE-injection flag, injected CTE list, wrapped
text); in a mixed store the number of projections carrying the compiled
field set equals the number of compiled nodes. -/
theorem build_flat_graph_field_sets (man : Manifest) :
    (man.build_flat_graph.map Prod.fst = man.nodes.map Node.unique_id) ∧
    (∀ n ∈ man.nodes, n.stage = Stage.parsed →
      flatNodeKeys n = requiredParsedNodeKeys) ∧
    (∀ n ∈ man.nodes, n.stage = Stage.compiled →
      flatNodeKeys n = requiredParsedNodeKeys ++ compiledOnlyNodeKeys) ∧
    (man.build_flat_graph.countP
        (fun e => decide (e.2 = requiredParsedNodeKeys ++ compiledOnlyNodeKeys)) =
      man.nodes.countP (fun n => decide (n.stage = Stage.compiled))) := by
  refine ⟨?_, ?_, ?_, ?_⟩
  · simp [Manifest.build_flat_graph]
  · intro n hn hs
    rw [flatNodeKeys, hs]
  · intro n hn hs
    rw [flatNodeKeys, hs]
  · rw [Manifest.build_flat_graph, List.countP_map]
    apply List.countP_congr
    intro n hn
    cases hs : n.stage <;>
      simp [Function.comp, flatNodeKeys, hs, requiredParsedNodeKeys, compiledOnlyNodeKeys]

/-- C7 witness: in the mixed fixture the compiled node's projection is the
base-plus-compiled field set and the parsed node's projection is the base
field set. -/
theorem build_flat_graph_field_sets_witness :
    flatNodeKeys compiledEventsNode = requiredParsedNodeKeys ++ compiledOnlyNodeKeys ∧
    flatNodeKeys nodeDep = requiredParsedNodeKeys :=
  ⟨(build_flat_graph_field_sets (make_manifest [compiledEventsNode, nodeDep] [] [])).2.2.1
      compiledEventsNode (by decide) rfl,
   (build_flat_graph_field_sets (make_manifest [compiledEventsNode, nodeDep] [] [])).2.1
      nodeDep (by decide) rfl⟩

/-- C8: a manifest over an empty store with no metadata supplied serializes
with empty node, macro, and doc dictionaries, empty parent and child maps,
metadata as an empty object, an empty disabled list and files mapping, and
`generated_at` formatted as an ISO-8601 timestamp at second precision with
a `Z` UTC suffix — at the frozen test time, `2018-02-14T09:15:13Z`. -/
theorem writable_manifest_empty_store (t : UTCTime) :
    (Manifest.mk [] [] [] t [] [] none).writable_manifest =
      ⟨[], [], [], [], formatTimestamp t, [], [], [], []⟩ ∧
    formatTimestamp ⟨2018, 2, 14, 9, 15, 13⟩ = "2018-02-14T09:15:13Z" :=
  ⟨rfl, by decide⟩

/-- C9: `get_resource_fqns` maps the pluralized label of each resource
kind to the fully-qualified-name tuples of exactly the (enabled) nodes of
that kind — an fqn appears under a label iff some node of that kind has
that fqn, so no fqn leaks under another kind's label — and the result for
an empty store is the empty mapping; for a store holding one seed named
(root, seed), the grouping is exactly {"seeds": {(root, seed)}}. -/
theorem get_resource_fqns_groups_by_kind (man : Manifest) :
    (man.nodes = [] → man.get_resource_fqns = []) ∧
    (∀ label fqn, (∃ e ∈ man.get_resource_fqns, e.1 = label ∧ fqn ∈ e.2) ↔
      ∃ n ∈ man.nodes, n.resource_type.pluralLabel = label ∧ n.fqn = fqn) ∧
    ((make_manifest [MockNode "root" "seed" NodeType.seed] [] []).get_resource_fqns =
      [("seeds", [["root", "seed"]])]) := by
  refine ⟨?_, ?_, by decide⟩
  · intro h
    rw [Manifest.get_resource_fqns, h]
    rfl
  · intro label fqn
    constructor
    · rintro ⟨e, he, helabel, hf⟩
      rw [Manifest.get_resource_fqns] at he
      obtain ⟨l, hl, rfl⟩ := List.mem_map.mp he
      obtain rfl : l = label := helabel
      have hf' := List.mem_dedup.mp hf
      obtain ⟨n, hnfil, rfl⟩ := List.mem_map.mp hf'
      obtain ⟨hn, hpl⟩ := List.mem_filter.mp hnfil
      exact ⟨n, hn, by simpa using hpl, rfl⟩
    · rintro ⟨n, hn, hpl, rfl⟩
      refine ⟨(label,
        ((man.nodes.filter (fun x => x.resource_type.pluralLabel = label)).map Node.fqn).dedup),
        ?_, rfl, ?_⟩
      · rw [Manifest.get_resource_fqns]
        apply List.mem_map.mpr
        refine ⟨label, ?_, rfl⟩
        rw [List.mem_dedup]
        exact hpl ▸ List.mem_map_of_mem (fun n => n.resource_type.pluralLabel) hn
      · rw [List.mem_dedup]
        exact List.mem_map_of_mem Node.fqn (List.mem_filter.mpr ⟨hn, by simpa using hpl⟩)

/-- C9 witness: the grouping of an empty store is the empty mapping. -/
theorem get_resource_fqns_groups_by_kind_witness :
    (make_manifest [] [] []).get_resource_fqns = [] :=
  (get_resource_fqns_groups_by_kind (make_manifest [] [] [])).1 rfl

/-- C10: with an active tracking user, metadata constructed with `user_id`
and `send_anonymous_usage_stats` omitted defaults those fields from the
user (its id, and the negation of its do-not-track flag), so it equals the
metadata constructed with those values passed explicitly, and both
defaulted fields appear populated in the serialized metadata block. -/
theorem metadata_defaults_from_active_user (u : ActiveUser)
    (project_id adapter_type : Option String) :
    mkManifestMetadata (some u) project_id none none adapter_type =
      mkManifestMetadata (some u) project_id (some u.id)
        (some (!u.do_not_track)) adapter_type ∧
    ("user_id", JsonValue.str u.id) ∈
      metadataToDict (mkManifestMetadata (some u) project_id none none adapter_type) ∧
    ("send_anonymous_usage_stats", JsonValue.boolean (!u.do_not_track)) ∈
      metadataToDict (mkManifestMetadata (some u) project_id none none adapter_type) := by
  refine ⟨rfl, ?_, ?_⟩ <;>
    simp [mkManifestMetadata, metadataToDict, optEntry]

end Dbt
